import Mathlib

/-!
# Verification of the deep-finder in-page search and highlight engine

Shallow embedding of the core logic of the repository:

* `src/pages/content-ui/src/App.tsx` — `isInViewport`, `getClosestMarkIndex`,
  `highlightText`, `clearHighlights`, `handleNextMark`, `handlePreviousMark`,
  `handleClosestMark`, `openFinder`, `closeFinder`;
* `src/unnamed/part_001` — the library variant of `getClosestMarkIndex`
  (with the scroll-to-top shortcut);
* `src/packages/storage/lib/impl/searchOptionsStorage.ts` — `toggleOption`.

Strings are modelled as `List Char` (a JS string is a sequence of code
units; the claims under verification do not involve surrogate pairs).
Geometry (`getBoundingClientRect`, `window.innerHeight`, …) is modelled
over `ℚ`, an exact abstraction of the finite float values the DOM reports.
The DOM subtree rooted at `document.body` is modelled as a tree of element
nodes, text nodes and MARK elements in left-child/right-sibling form.
-/

/-- `SearchOptions` from `searchOptionsStorage.ts` / `App.tsx`. -/
structure SearchOptions where
  preserveCase : Bool
  wholeWord : Bool
  useRegex : Bool
  onlyViewport : Bool
deriving DecidableEq, Repr

/-- The four keys of `SearchOptions` (`keyof SearchOptions`). -/
inductive OptionKey where
  | preserveCase
  | wholeWord
  | useRegex
  | onlyViewport
deriving DecidableEq, Repr

/-- Read the flag named by an `OptionKey` (`currentOptions[option]`). -/
def getOption (k : OptionKey) (o : SearchOptions) : Bool :=
  match k with
  | .preserveCase => o.preserveCase
  | .wholeWord => o.wholeWord
  | .useRegex => o.useRegex
  | .onlyViewport => o.onlyViewport

/-- `toggleOption` from `searchOptionsStorage.ts`: the stored options are
replaced by `{ ...currentOptions, [option]: !currentOptions[option] }`. -/
def toggleOption (k : OptionKey) (o : SearchOptions) : SearchOptions :=
  match k with
  | .preserveCase => { o with preserveCase := !o.preserveCase }
  | .wholeWord => { o with wholeWord := !o.wholeWord }
  | .useRegex => { o with useRegex := !o.useRegex }
  | .onlyViewport => { o with onlyViewport := !o.onlyViewport }

/-- JavaScript whitespace as far as the queries and node texts of this
development are concerned (the ASCII white space characters removed by
`String.prototype.trim`). -/
def isJsWhite (c : Char) : Bool :=
  c = ' ' || c = '\t' || c = '\n' || c = '\r' || c = '\x0b' || c = '\x0c'

/-- `text.trim()`: strip leading and trailing whitespace. -/
def jsTrim (s : List Char) : List Char :=
  ((s.dropWhile isJsWhite).reverse.dropWhile isJsWhite).reverse

/-- The regex metacharacters escaped by `highlightText`: the character
class of `text.replace(/[.*+?^${}()|[\]\\]/g, '\\$&')`. -/
def isMeta (c : Char) : Bool :=
  c = '.' || c = '*' || c = '+' || c = '?' || c = '^' || c = '$' ||
  c = '\x7b' || c = '\x7d' || c = '(' || c = ')' || c = '|' ||
  c = '[' || c = ']' || c = '\\'

/-- `text.replace(/[.*+?^${}()|[\]\\]/g, '\\$&')`: prefix each occurrence
of a regex metacharacter with a backslash. -/
def escapeRegExp : List Char → List Char
  | [] => []
  | c :: rest =>
    if isMeta c then '\\' :: c :: escapeRegExp rest
    else c :: escapeRegExp rest

/-- The pattern source handed to `new RegExp` by `highlightText`
(`App.tsx` lines 54–65): the query verbatim in regex mode, otherwise the
escaped query, wrapped in `\b…\b` when `wholeWord` is set. -/
def buildPattern (text : List Char) (o : SearchOptions) : List Char :=
  if !o.useRegex then
    let e := escapeRegExp text
    if o.wholeWord then '\\' :: 'b' :: (e ++ ['\\', 'b']) else e
  else text

/-- Interpretation of a regex pattern that denotes a literal string: a
backslash followed by a metacharacter denotes that character itself; an
unescaped metacharacter (or a backslash escape such as `\b`, which is an
assertion rather than a literal) means the pattern is not a plain
literal and the interpretation fails. -/
def unescapeLit : List Char → Option (List Char)
  | [] => some []
  | c :: rest =>
    if c = '\\' then
      match rest with
      | [] => none
      | d :: rest2 =>
        if isMeta d then (unescapeLit rest2).map (fun l => d :: l) else none
    else if isMeta c then none
    else (unescapeLit rest).map (fun l => c :: l)

/-- `handleNextMark` (`App.tsx` lines 218–228) as a function on the mark
count and the current active index: no-op when there are no marks,
otherwise `currentIndex === marks.length - 1 ? 0 : currentIndex + 1`. -/
def handleNextMark (count : Nat) (i : Int) : Int :=
  if count = 0 then i
  else if i = (count : Int) - 1 then 0 else i + 1

/-- `handlePreviousMark` (`App.tsx` lines 206–216): no-op when there are
no marks, otherwise `currentIndex === 0 ? marks.length - 1 : currentIndex - 1`. -/
def handlePreviousMark (count : Nat) (i : Int) : Int :=
  if count = 0 then i
  else if i = 0 then (count : Int) - 1 else i - 1

theorem escapeRegExp_unescape (q : List Char) :
    unescapeLit (escapeRegExp q) = some q := by
  induction q with
  | nil => rfl
  | cons c rest ih =>
    by_cases h : isMeta c = true
    · rw [escapeRegExp, if_pos h, unescapeLit.eq_def]
      dsimp only
      rw [if_pos rfl]
      simp only [h, if_true, ih]
      rfl
    · have hne : c ≠ '\\' := by
        intro hc; subst hc; simp [isMeta] at h
      rw [escapeRegExp, if_neg h, unescapeLit.eq_def]
      dsimp only
      rw [if_neg hne, if_neg h, ih]
      rfl

/-- C2: in non-regex mode the compiled pattern is the query with every
metacharacter escaped (and `unescapeLit` certifies that this pattern
denotes exactly the literal query); with `wholeWord` additionally set it
is wrapped in `\b` on both ends; in regex mode the query is the pattern
verbatim, whatever `wholeWord` is. -/
theorem pattern_compilation_spec (q : List Char) (o : SearchOptions) :
    (o.useRegex = false → o.wholeWord = false →
      buildPattern q o = escapeRegExp q ∧
      unescapeLit (buildPattern q o) = some q) ∧
    (o.useRegex = false → o.wholeWord = true →
      buildPattern q o = '\\' :: 'b' :: (escapeRegExp q ++ ['\\', 'b'])) ∧
    (o.useRegex = true → buildPattern q o = q) := by
  refine ⟨fun hr hw => ?_, fun hr hw => ?_, fun hr => ?_⟩
  · constructor
    · simp [buildPattern, hr, hw]
    · simp [buildPattern, hr, hw, escapeRegExp_unescape]
  · simp [buildPattern, hr, hw]
  · simp [buildPattern, hr]

/-- Witness for C2 at the concrete query `"a+"` in plain literal mode. -/
theorem pattern_compilation_spec_witness :
    buildPattern ['a', '+'] ⟨false, false, false, false⟩ =
      escapeRegExp ['a', '+'] ∧
    unescapeLit (buildPattern ['a', '+'] ⟨false, false, false, false⟩) =
      some ['a', '+'] :=
  (pattern_compilation_spec ['a', '+'] ⟨false, false, false, false⟩).1 rfl rfl

/-- C4: for an active index in `[0, count-1]`, `next` moves to
`(i+1) mod count` and `previous` to `(i-1+count) mod count`; with zero
marks both commands leave the index unchanged. -/
theorem navigation_wraparound (count : Nat) (i : Int)
    (h0 : 0 ≤ i) (h1 : i < (count : Int)) :
    handleNextMark count i = (i + 1) % (count : Int) ∧
    handlePreviousMark count i = (i - 1 + (count : Int)) % (count : Int) ∧
    (∀ j : Int, handleNextMark 0 j = j ∧ handlePreviousMark 0 j = j) := by
  have hc : count ≠ 0 := by omega
  refine ⟨?_, ?_, fun j => ⟨rfl, rfl⟩⟩
  · unfold handleNextMark
    rw [if_neg hc]
    by_cases he : i = (count : Int) - 1
    · rw [if_pos he, he]
      have h2 : (count : Int) - 1 + 1 = (count : Int) := by ring
      rw [h2, Int.emod_self]
    · rw [if_neg he,
        Int.emod_eq_of_lt (show (0 : Int) ≤ i + 1 by omega)
          (show i + 1 < (count : Int) by omega)]
  · unfold handlePreviousMark
    rw [if_neg hc]
    by_cases he : i = 0
    · rw [if_pos he, he]
      have h2 : (0 : Int) - 1 + (count : Int) = (count : Int) - 1 := by ring
      rw [h2,
        Int.emod_eq_of_lt (show (0 : Int) ≤ (count : Int) - 1 by omega)
          (show (count : Int) - 1 < (count : Int) by omega)]
    · rw [if_neg he,
        show i - 1 + (count : Int) = i - 1 + (count : Int) * 1 by ring,
        Int.add_mul_emod_self_left,
        Int.emod_eq_of_lt (show (0 : Int) ≤ i - 1 by omega)
          (show i - 1 < (count : Int) by omega)]

/-- Witness for C4 at 3 marks, active index 2 ("next" wraps to 0) and
active index 0 ("previous" wraps to 2). -/
theorem navigation_wraparound_witness :
    handleNextMark 3 2 = (2 + 1) % (3 : Int) ∧
    handlePreviousMark 3 0 = (0 - 1 + (3 : Int)) % (3 : Int) :=
  ⟨(navigation_wraparound 3 2 (by decide) (by decide)).1,
   (navigation_wraparound 3 0 (by decide) (by decide)).2.1⟩

/-- C10: `toggleOption` negates exactly the named flag and leaves every
other flag of the stored `SearchOptions` unchanged. -/
theorem toggleOption_frame (o : SearchOptions) (k k' : OptionKey)
    (h : k' ≠ k) :
    getOption k (toggleOption k o) = !(getOption k o) ∧
    getOption k' (toggleOption k o) = getOption k' o := by
  cases k <;> cases k' <;> simp_all [getOption, toggleOption]

/-- Witness for C10: toggling `preserveCase` on the all-false options
flips it and leaves `wholeWord` alone. -/
theorem toggleOption_frame_witness :
    getOption .preserveCase
        (toggleOption .preserveCase ⟨false, false, false, false⟩) =
      !(getOption .preserveCase ⟨false, false, false, false⟩) ∧
    getOption .wholeWord
        (toggleOption .preserveCase ⟨false, false, false, false⟩) =
      getOption .wholeWord ⟨false, false, false, false⟩ :=
  toggleOption_frame ⟨false, false, false, false⟩ .preserveCase .wholeWord
    (by decide)

/-- A bounding client rectangle, as reported by `getBoundingClientRect`.
Coordinates over `ℚ` (an exact model of the finite float values the DOM
reports). A `DOMRect` satisfies `height = bottom - top`, so the height is
derived. -/
structure Rect where
  top : ℚ
  left : ℚ
  bottom : ℚ
  right : ℚ
deriving DecidableEq, Repr

/-- The window geometry used by the engine: `window.innerHeight`,
`window.innerWidth` and `window.scrollY`. -/
structure Window where
  innerHeight : ℚ
  innerWidth : ℚ
  scrollY : ℚ
deriving DecidableEq, Repr

/-- `rect.height` of a `DOMRect`. -/
def rectHeight (r : Rect) : ℚ := r.bottom - r.top

/-- `isInViewport` (`App.tsx` lines 11–15 and `part_001`): the bounding
rectangle has `top ≥ 0`, `left ≥ 0`, `bottom ≤ window.innerHeight` and
`right ≤ window.innerWidth`. -/
def isInViewport (r : Rect) (w : Window) : Bool :=
  r.top ≥ 0 && r.left ≥ 0 && r.bottom ≤ w.innerHeight && r.right ≤ w.innerWidth

/-- `Math.abs(rect.top + rect.height / 2 - window.innerHeight / 2)`:
the distance of a mark's vertical center from the viewport's vertical
center. -/
def distFromCenter (w : Window) (r : Rect) : ℚ :=
  |r.top + rectHeight r / 2 - w.innerHeight / 2|

/-- The first element of the list attaining the minimal value of `f`:
this is `sortedViewportMarks[0]` after the stable ascending
`viewportMarks.sort((a, b) => aDist - bDist)` of the source (a stable
sort keeps the earliest element among those comparing equal in front). -/
def firstMinBy (f : Rect → ℚ) : List Rect → Option Rect
  | [] => none
  | r :: rs =>
    match firstMinBy f rs with
    | none => some r
    | some m => if f m < f r then some m else some r

namespace App

/-- `getClosestMarkIndex` from `App.tsx` (lines 22–42): filter the marks
to those in the viewport, take the one closest to the viewport's
vertical center (head of the stable sort by center distance), and map it
back to its index in the full mark list (`findIndex`, falling back to
index 0 when nothing was found — in particular when there are no
in-viewport marks, since `sortedViewportMarks[0]` is then undefined). -/
def getClosestMarkIndex (marks : List Rect) (w : Window) : Nat :=
  let viewportMarks := marks.filter (fun m => isInViewport m w)
  match firstMinBy (distFromCenter w) viewportMarks with
  | none => 0
  | some best => (marks.findIdx? (fun m => m = best)).getD 0

end App

namespace Lib

/-- `getClosestMarkIndex` from `src/unnamed/part_001` (lines 25–54): as
the `App.tsx` variant, but returning the first mark straight away when
the window is scrolled to the very top, when the mark list is empty, or
when no mark is inside the viewport. -/
def getClosestMarkIndex (marks : List Rect) (w : Window) : Nat :=
  if w.scrollY = 0 then 0
  else if marks.isEmpty then 0
  else
    let viewportMarks := marks.filter (fun m => isInViewport m w)
    if viewportMarks.isEmpty then 0
    else
      match firstMinBy (distFromCenter w) viewportMarks with
      | none => 0
      | some best => (marks.findIdx? (fun m => m = best)).getD 0

end Lib

/-- `handleClosestMark` (`App.tsx` lines 230–246): with an empty new
mark set the active index becomes `-1`; otherwise it becomes the index
of the closest mark. -/
def handleClosestMark (newMarks : List Rect) (w : Window) : Int :=
  if newMarks.isEmpty then -1 else (App.getClosestMarkIndex newMarks w : Int)

theorem firstMinBy_none (f : Rect → ℚ) (l : List Rect)
    (h : firstMinBy f l = none) : l = [] := by
  cases l with
  | nil => rfl
  | cons r rs =>
    rw [firstMinBy] at h
    cases hrec : firstMinBy f rs with
    | none =>
      rw [hrec] at h
      dsimp only at h
      exact absurd h (by simp)
    | some m2 =>
      rw [hrec] at h
      dsimp only at h
      by_cases hlt : f m2 < f r
      · rw [if_pos hlt] at h; exact absurd h (by simp)
      · rw [if_neg hlt] at h; exact absurd h (by simp)

theorem firstMinBy_mem (f : Rect → ℚ) (l : List Rect) (m : Rect)
    (h : firstMinBy f l = some m) : m ∈ l := by
  induction l with
  | nil => simp [firstMinBy] at h
  | cons r rs ih =>
    rw [firstMinBy] at h
    cases hrec : firstMinBy f rs with
    | none =>
      rw [hrec] at h
      dsimp only at h
      simp only [Option.some.injEq] at h
      simp [h]
    | some m2 =>
      rw [hrec] at h
      dsimp only at h
      by_cases hlt : f m2 < f r
      · rw [if_pos hlt] at h
        simp only [Option.some.injEq] at h
        subst h
        exact List.mem_cons_of_mem r (ih hrec)
      · rw [if_neg hlt] at h
        simp only [Option.some.injEq] at h
        simp [h]

theorem firstMinBy_min (f : Rect → ℚ) (l : List Rect) (m : Rect)
    (h : firstMinBy f l = some m) : ∀ x ∈ l, f m ≤ f x := by
  induction l generalizing m with
  | nil => simp [firstMinBy] at h
  | cons r rs ih =>
    rw [firstMinBy] at h
    cases hrec : firstMinBy f rs with
    | none =>
      rw [hrec] at h
      dsimp only at h
      simp only [Option.some.injEq] at h
      have hrs : rs = [] := firstMinBy_none f rs hrec
      subst hrs
      subst h
      intro x hx
      simp only [List.mem_singleton] at hx
      rw [hx]
    | some m2 =>
      rw [hrec] at h
      dsimp only at h
      by_cases hlt : f m2 < f r
      · rw [if_pos hlt] at h
        simp only [Option.some.injEq] at h
        subst h
        intro x hx
        rcases List.mem_cons.mp hx with h1 | h2
        · rw [h1]; exact le_of_lt hlt
        · exact ih _ hrec x h2
      · rw [if_neg hlt] at h
        simp only [Option.some.injEq] at h
        subst h
        intro x hx
        rcases List.mem_cons.mp hx with h1 | h2
        · rw [h1]
        · exact le_trans (le_of_not_lt hlt) (ih _ hrec x h2)

theorem findIdx_of_mem (l : List Rect) (b : Rect) (hb : b ∈ l) :
    ∃ i, l.findIdx? (fun m => m = b) = some i ∧
      ∃ h : i < l.length, l.get ⟨i, h⟩ = b := by
  have hsome : (l.findIdx? (fun m => m = b)).isSome := by
    rw [List.findIdx?_isSome]
    exact List.any_eq_true.mpr ⟨b, hb, by simp⟩
  obtain ⟨i, hi⟩ := Option.isSome_iff_exists.mp hsome
  refine ⟨i, hi, ?_⟩
  obtain ⟨h, hp, _⟩ := List.findIdx?_eq_some_iff_getElem.mp hi
  refine ⟨h, ?_⟩
  have := of_decide_eq_true hp
  simpa [List.get_eq_getElem] using this

theorem appClosestMarkIndex_lt_length (marks : List Rect) (w : Window)
    (hne : marks ≠ []) : App.getClosestMarkIndex marks w < marks.length := by
  rw [App.getClosestMarkIndex]
  cases hf : firstMinBy (distFromCenter w)
      (marks.filter (fun m => isInViewport m w)) with
  | none => exact List.length_pos.mpr hne
  | some best =>
    have hmem : best ∈ marks :=
      List.mem_of_mem_filter (firstMinBy_mem _ _ _ hf)
    obtain ⟨i, hi, h, _⟩ := findIdx_of_mem marks best hmem
    simpa [hi] using h

theorem libClosestMarkIndex_lt_length (marks : List Rect) (w : Window)
    (hne : marks ≠ []) : Lib.getClosestMarkIndex marks w < marks.length := by
  rw [Lib.getClosestMarkIndex]
  have hpos : 0 < marks.length := List.length_pos.mpr hne
  by_cases h0 : w.scrollY = 0
  · simpa [h0] using hpos
  · rw [if_neg h0]
    by_cases hemp : marks.isEmpty
    · simpa [hemp] using hpos
    · rw [if_neg hemp]
      dsimp only
      by_cases hvemp : (marks.filter (fun m => isInViewport m w)).isEmpty
      · simpa [hvemp] using hpos
      · rw [if_neg hvemp]
        cases hf : firstMinBy (distFromCenter w)
            (marks.filter (fun m => isInViewport m w)) with
        | none => exact hpos
        | some best =>
          have hmem : best ∈ marks :=
            List.mem_of_mem_filter (firstMinBy_mem _ _ _ hf)
          obtain ⟨i, hi, h, _⟩ := findIdx_of_mem marks best hmem
          simpa [hi] using h

/-- The navigation state of the engine: the number of marks currently
materialized and the active mark index (`activeMarkIndex` in `App.tsx`,
`-1` when there is no current match). -/
structure EngineState where
  markCount : Nat
  activeIndex : Int
deriving DecidableEq, Repr

/-- The initial state of `App`: `useState<HTMLElement[]>([])` for the
marks and `useState(-1)` for the active index. -/
def engineInit : EngineState := ⟨0, -1⟩

/-- The documented transitions of the navigation controller, each built
from the corresponding handler of `App.tsx`: explicit next/previous
navigation, a rescan (which installs the new mark set and then runs the
deferred default selection `handleClosestMark`), and closing the finder
(`closeFinder` clears the marks and resets the index to `-1`). -/
inductive EngineStep : EngineState → EngineState → Prop where
  | next (s : EngineState) :
      EngineStep s ⟨s.markCount, handleNextMark s.markCount s.activeIndex⟩
  | previous (s : EngineState) :
      EngineStep s ⟨s.markCount, handlePreviousMark s.markCount s.activeIndex⟩
  | rescan (s : EngineState) (newMarks : List Rect) (w : Window) :
      EngineStep s ⟨newMarks.length, handleClosestMark newMarks w⟩
  | close (s : EngineState) :
      EngineStep s ⟨0, -1⟩

/-- A state of the engine reachable from the initial state through the
documented transitions. -/
def EngineReachable (s : EngineState) : Prop :=
  Relation.ReflTransGen EngineStep engineInit s

/-- The inductive invariant of the navigation controller: with no marks
the index is exactly `-1`, otherwise it is a valid position. -/
def EngineInv (s : EngineState) : Prop :=
  if s.markCount = 0 then s.activeIndex = -1
  else 0 ≤ s.activeIndex ∧ s.activeIndex < (s.markCount : Int)

theorem engineInv_init : EngineInv engineInit := by
  simp [EngineInv, engineInit]

theorem engineInv_step (s s' : EngineState) (hs : EngineInv s)
    (h : EngineStep s s') : EngineInv s' := by
  cases h with
  | next =>
    unfold EngineInv at hs ⊢
    dsimp only
    by_cases hc : s.markCount = 0
    · rw [if_pos hc] at hs ⊢
      simp [handleNextMark, hc, hs]
    · rw [if_neg hc] at hs ⊢
      unfold handleNextMark
      rw [if_neg hc]
      by_cases he : s.activeIndex = (s.markCount : Int) - 1
      · rw [if_pos he]
        omega
      · rw [if_neg he]
        omega
  | previous =>
    unfold EngineInv at hs ⊢
    dsimp only
    by_cases hc : s.markCount = 0
    · rw [if_pos hc] at hs ⊢
      simp [handlePreviousMark, hc, hs]
    · rw [if_neg hc] at hs ⊢
      unfold handlePreviousMark
      rw [if_neg hc]
      by_cases he : s.activeIndex = 0
      · rw [if_pos he]
        omega
      · rw [if_neg he]
        omega
  | rescan newMarks w =>
    unfold EngineInv
    dsimp only
    by_cases hne : newMarks = []
    · subst hne
      simp [handleClosestMark]
    · have hlen : newMarks.length ≠ 0 := by
        simpa [List.length_eq_zero] using hne
      rw [if_neg hlen]
      have hemp : newMarks.isEmpty = false := by
        cases newMarks with
        | nil => exact absurd rfl hne
        | cons a as => rfl
      rw [handleClosestMark, hemp]
      simp only [Bool.false_eq_true, if_false]
      constructor
      · exact Int.natCast_nonneg _
      · exact_mod_cast appClosestMarkIndex_lt_length newMarks w hne
  | close =>
    simp [EngineInv]

theorem engineInv_reachable (s : EngineState) (h : EngineReachable s) :
    EngineInv s := by
  induction h with
  | refl => exact engineInv_init
  | tail _ hstep ih => exact engineInv_step _ _ ih hstep

/-- C5: in every reachable state of the engine the active index lies in
`[-1, markCount - 1]`, `-1` standing for "no current match"; all the
documented transitions (rescan with default selection, next, previous,
close) preserve this, starting from the initial state `-1`. -/
theorem active_index_invariant (s : EngineState) (h : EngineReachable s) :
    -1 ≤ s.activeIndex ∧ s.activeIndex ≤ (s.markCount : Int) - 1 := by
  have hs := engineInv_reachable s h
  unfold EngineInv at hs
  by_cases hc : s.markCount = 0
  · rw [if_pos hc] at hs
    rw [hs, hc]
    norm_num
  · rw [if_neg hc] at hs
    omega

/-- Witness for C5: the initial state is reachable and satisfies the
invariant. -/
theorem active_index_invariant_witness :
    -1 ≤ engineInit.activeIndex ∧
      engineInit.activeIndex ≤ (engineInit.markCount : Int) - 1 :=
  active_index_invariant engineInit Relation.ReflTransGen.refl

theorem Lib.getClosestMarkIndex_main (marks : List Rect) (w : Window)
    (h0 : w.scrollY ≠ 0)
    (hvne : marks.filter (fun m => isInViewport m w) ≠ []) (best : Rect)
    (hf : firstMinBy (distFromCenter w)
        (marks.filter (fun m => isInViewport m w)) = some best) :
    Lib.getClosestMarkIndex marks w =
      (marks.findIdx? (fun m => m = best)).getD 0 := by
  unfold Lib.getClosestMarkIndex
  rw [if_neg h0]
  have hne : marks ≠ [] := by
    intro h
    subst h
    simp at hvne
  have hemp : marks.isEmpty = false := by
    cases marks with
    | nil => exact absurd rfl hne
    | cons a as => rfl
  rw [if_neg (by simp [hemp])]
  dsimp only
  have hvemp : (marks.filter (fun m => isInViewport m w)).isEmpty = false := by
    cases hv : marks.filter (fun m => isInViewport m w) with
    | nil => exact absurd hv hvne
    | cons a as => rfl
  rw [if_neg (by simp [hvemp]), hf]

/-- C7: for a nonempty mark set, the closest-mark selection of
`part_001` returns an index in range; it returns 0 when the window is
scrolled to the very top or when no mark is fully inside the viewport;
otherwise it returns the index of an in-viewport mark whose vertical
center is closest to the viewport's vertical center (no in-viewport mark
is strictly closer). -/
theorem closest_mark_selection (marks : List Rect) (w : Window)
    (hne : marks ≠ []) :
    Lib.getClosestMarkIndex marks w < marks.length ∧
    ((w.scrollY = 0 ∨ ∀ r ∈ marks, isInViewport r w = false) →
      Lib.getClosestMarkIndex marks w = 0) ∧
    (w.scrollY ≠ 0 → (∃ r ∈ marks, isInViewport r w = true) →
      ∃ hi : Lib.getClosestMarkIndex marks w < marks.length,
        isInViewport (marks.get ⟨Lib.getClosestMarkIndex marks w, hi⟩) w
          = true ∧
        ∀ r ∈ marks, isInViewport r w = true →
          distFromCenter w
              (marks.get ⟨Lib.getClosestMarkIndex marks w, hi⟩) ≤
            distFromCenter w r) := by
  refine ⟨libClosestMarkIndex_lt_length marks w hne, ?_, ?_⟩
  · intro hz
    by_cases h0 : w.scrollY = 0
    · unfold Lib.getClosestMarkIndex
      rw [if_pos h0]
    · rcases hz with hz0 | hall
      · exact absurd hz0 h0
      · unfold Lib.getClosestMarkIndex
        rw [if_neg h0]
        by_cases hemp : marks.isEmpty
        · rw [if_pos (by simp [hemp])]
        · rw [if_neg hemp]
          dsimp only
          have hv : marks.filter (fun m => isInViewport m w) = [] :=
            List.filter_eq_nil_iff.mpr (fun a ha => by simp [hall a ha])
          rw [hv]
          rfl
  · intro h0 hex
    obtain ⟨r0, hr0, hr0v⟩ := hex
    have hr0mem : r0 ∈ marks.filter (fun m => isInViewport m w) :=
      List.mem_filter.mpr ⟨hr0, hr0v⟩
    have hvne : marks.filter (fun m => isInViewport m w) ≠ [] := by
      intro hnil
      rw [hnil] at hr0mem
      simp at hr0mem
    cases hf : firstMinBy (distFromCenter w)
        (marks.filter (fun m => isInViewport m w)) with
    | none => exact absurd (firstMinBy_none _ _ hf) hvne
    | some best =>
      have hmain := Lib.getClosestMarkIndex_main marks w h0 hvne best hf
      have hbestf : best ∈ marks.filter (fun m => isInViewport m w) :=
        firstMinBy_mem _ _ _ hf
      have hbestm : best ∈ marks := List.mem_of_mem_filter hbestf
      have hbestv : isInViewport best w = true :=
        (List.mem_filter.mp hbestf).2
      obtain ⟨i, hi, hlen, hget⟩ := findIdx_of_mem marks best hbestm
      have hidx : Lib.getClosestMarkIndex marks w = i := by
        rw [hmain, hi, Option.getD_some]
      refine ⟨libClosestMarkIndex_lt_length marks w hne, ?_, ?_⟩
      · have hgeq : marks.get
            ⟨Lib.getClosestMarkIndex marks w,
              libClosestMarkIndex_lt_length marks w hne⟩ = best := by
          simp only [hidx]
          exact hget
        rw [hgeq]
        exact hbestv
      · intro r hr hrv
        have hgeq : marks.get
            ⟨Lib.getClosestMarkIndex marks w,
              libClosestMarkIndex_lt_length marks w hne⟩ = best := by
          simp only [hidx]
          exact hget
        rw [hgeq]
        exact firstMinBy_min _ _ _ hf r (List.mem_filter.mpr ⟨hr, hrv⟩)

/-- Witness for C7: a single mark with the window scrolled to the very
top selects index 0. -/
theorem closest_mark_selection_witness :
    Lib.getClosestMarkIndex ([⟨0, 0, 10, 10⟩] : List Rect)
        (⟨100, 100, 0⟩ : Window) < ([⟨0, 0, 10, 10⟩] : List Rect).length ∧
    ((Window.scrollY ⟨100, 100, 0⟩ = 0 ∨
        ∀ r ∈ ([⟨0, 0, 10, 10⟩] : List Rect),
          isInViewport r ⟨100, 100, 0⟩ = false) →
      Lib.getClosestMarkIndex ([⟨0, 0, 10, 10⟩] : List Rect)
        ⟨100, 100, 0⟩ = 0) ∧
    (Window.scrollY ⟨100, 100, 0⟩ ≠ 0 →
      (∃ r ∈ ([⟨0, 0, 10, 10⟩] : List Rect),
        isInViewport r ⟨100, 100, 0⟩ = true) →
      ∃ hi : Lib.getClosestMarkIndex ([⟨0, 0, 10, 10⟩] : List Rect)
          ⟨100, 100, 0⟩ < ([⟨0, 0, 10, 10⟩] : List Rect).length,
        isInViewport
            (([⟨0, 0, 10, 10⟩] : List Rect).get
              ⟨Lib.getClosestMarkIndex ([⟨0, 0, 10, 10⟩] : List Rect)
                ⟨100, 100, 0⟩, hi⟩) ⟨100, 100, 0⟩ = true ∧
        ∀ r ∈ ([⟨0, 0, 10, 10⟩] : List Rect),
          isInViewport r ⟨100, 100, 0⟩ = true →
          distFromCenter ⟨100, 100, 0⟩
              (([⟨0, 0, 10, 10⟩] : List Rect).get
                ⟨Lib.getClosestMarkIndex ([⟨0, 0, 10, 10⟩] : List Rect)
                  ⟨100, 100, 0⟩, hi⟩) ≤
            distFromCenter ⟨100, 100, 0⟩ r) :=
  closest_mark_selection ([⟨0, 0, 10, 10⟩] : List Rect) ⟨100, 100, 0⟩
    (by simp)

/-- The UI-level state of the `App` component relevant to the
close/reopen flow: widget visibility, the live search text, the current
marks (their rectangles), the active index and the externally persisted
search input (`searchInputStorage`). -/
structure AppState where
  isVisible : Bool
  searchText : List Char
  marks : List Rect
  activeMarkIndex : Int
  storedInput : List Char
deriving DecidableEq, Repr

/-- `closeFinder` (`App.tsx` lines 268–274): clear the highlights, empty
the mark list, reset the active index to `-1`, reset the search text and
hide the widget. Nothing else is recorded (the persisted input is
untouched). -/
def closeFinder (s : AppState) : AppState :=
  { s with
    marks := []
    activeMarkIndex := -1
    searchText := []
    isVisible := false }

/-- `openFinder` (`App.tsx` lines 260–266): show the widget and load the
search text from the persisted input. -/
def openFinder (s : AppState) : AppState :=
  { s with isVisible := true, searchText := s.storedInput }

/-- The rescan effect (`App.tsx` lines 291–304) at the state level: the
new mark set replaces the old one, and the deferred `handleClosestMark`
computes the new active index from the new marks' geometry. -/
def rescanMarks (s : AppState) (newMarks : List Rect) (w : Window) :
    AppState :=
  { s with
    marks := newMarks
    activeMarkIndex := handleClosestMark newMarks w }

/-- C8 counterexample: close the finder at active index 2 with query
`"ab"` (persisted as `"ab"`), reopen and rescan with the same query and
the same three marks (all off-viewport here). The cached index 2 is in
range for the new mark set and the query is unchanged, yet the engine
recomputes the default selection (index 0) rather than restoring 2: no
`{activeIndex, queryText}` pair is cached by `closeFinder`. -/
theorem close_reopen_counterexample :
    (rescanMarks (openFinder (closeFinder
        ⟨true, ['a', 'b'], [⟨-1, 0, 5, 5⟩, ⟨-1, 0, 5, 5⟩, ⟨-1, 0, 5, 5⟩],
          2, ['a', 'b']⟩))
        [⟨-1, 0, 5, 5⟩, ⟨-1, 0, 5, 5⟩, ⟨-1, 0, 5, 5⟩]
        ⟨100, 100, 50⟩).searchText = ['a', 'b'] ∧
    (0 : Int) ≤ 2 ∧
    (2 : Int) <
      ([⟨-1, 0, 5, 5⟩, ⟨-1, 0, 5, 5⟩, ⟨-1, 0, 5, 5⟩] : List Rect).length ∧
    (rescanMarks (openFinder (closeFinder
        ⟨true, ['a', 'b'], [⟨-1, 0, 5, 5⟩, ⟨-1, 0, 5, 5⟩, ⟨-1, 0, 5, 5⟩],
          2, ['a', 'b']⟩))
        [⟨-1, 0, 5, 5⟩, ⟨-1, 0, 5, 5⟩, ⟨-1, 0, 5, 5⟩]
        ⟨100, 100, 50⟩).activeMarkIndex = 0 ∧
    ((0 : Int) ≠ 2) := by
  refine ⟨rfl, by decide, by decide, ?_, by decide⟩
  decide

/-- C8 (amended): on close the engine clears all marks, resets the
active index to `-1`, resets the search text and hides the widget,
caching no `{activeIndex, queryText}` pair; on a subsequent open the
query text is restored from persisted storage, and the rescan always
recomputes the active index through the nearest-to-viewport selection
(`handleClosestMark`), never from a previously active index. -/
theorem close_reopen_behavior (s : AppState) (newMarks : List Rect)
    (w : Window) :
    closeFinder s = ⟨false, [], [], -1, s.storedInput⟩ ∧
    (openFinder (closeFinder s)).searchText = s.storedInput ∧
    (rescanMarks (openFinder (closeFinder s)) newMarks w).activeMarkIndex =
      handleClosestMark newMarks w :=
  ⟨rfl, rfl, rfl⟩

/-- The per-element facts the scanner's node filter consults: whether the
computed style hides the element (`display: none` or
`visibility: hidden`), its bounding rectangle, and whether it carries
the widget's own `deepfinder-container` class. -/
structure ElemData where
  hiddenStyle : Bool
  rect : Rect
  isFinderContainer : Bool
deriving DecidableEq, Repr

/-- The DOM subtree below `document.body`, in left-child/right-sibling
form: a `Dom` value is a sibling chain whose nodes are text nodes, MARK
elements (holding their text content — the highlights this engine
creates wrap exactly one text node) and other elements with their
children. -/
inductive Dom where
  | nil : Dom
  | text : List Char → Dom → Dom
  | mark : List Char → Dom → Dom
  | elem : ElemData → Dom → Dom → Dom
deriving DecidableEq, Repr

/-- The concatenated visible text of a document fragment: its text
leaves (including the text wrapped by MARK elements) in document
order. -/
def docText : Dom → List Char
  | .nil => []
  | .text s k => s ++ docText k
  | .mark s k => s ++ docText k
  | .elem _ c k => docText c ++ docText k

/-- The substring of `s` between offsets `a` and `b` (the text content
between `range.setStart(node, a)` and `range.setEnd(node, b)`). -/
def sliceStr (s : List Char) (a b : Nat) : List Char := (s.take b).drop a

/-- The effect on one text node of `range.surroundContents(mark)` applied
to its match ranges in reverse document order (`App.tsx` lines 122–135):
wrapping the last range `(a, b)` splits the node into its prefix (which
keeps the node identity the earlier, not yet processed ranges refer to),
the new MARK holding the matched slice, and the suffix text node; the
remaining ranges are then wrapped inside the prefix. `k` is the sibling
chain following the node. -/
def wrapRev (s : List Char) : List (Nat × Nat) → Dom → Dom
  | [], k => .text s k
  | (a, b) :: rest, k =>
    wrapRev (s.take a) rest (.mark (sliceStr s a b) (.text (s.drop b) k))

/-- The `matchAll` semantics of a compiled regex: the match ranges
(start offset, end offset) it produces on a given text. -/
def Matcher : Type := List Char → List (Nat × Nat)

/-- The scanner's per-node filter (`App.tsx` lines 76–96 together with
the MARK/self-exclusion check of lines 107): accept a text node unless
its text is empty or whitespace-only, its parent element is hidden,
`onlyViewport` is set and the parent is not inside the viewport, or the
node sits inside the widget's own `deepfinder-container` subtree (text
directly inside a MARK is excluded structurally: MARK nodes carry their
text and are never scanned). -/
def acceptNode (o : SearchOptions) (w : Window) (parent : ElemData)
    (insideFinder : Bool) (s : List Char) : Bool :=
  !(jsTrim s).isEmpty && !parent.hiddenStyle &&
    !(o.onlyViewport && !isInViewport parent.rect w) && !insideFinder

/-- The scan-and-materialize pass of `highlightText` over a sibling
chain: each accepted text node has its `matchAll` ranges wrapped (in
reverse order, every wrap succeeding since `matchAll` ranges are
ascending and non-overlapping), and the marks' texts are collected in
document order (the reverse loop `unshift`s into `newMarks`). `parent`
is the element data of the chain's parent and `insideFinder` tells
whether some ancestor carries the `deepfinder-container` class. -/
def highlightDom (m : Matcher) (o : SearchOptions) (w : Window) :
    ElemData → Bool → Dom → Dom × List (List Char)
  | _, _, .nil => (.nil, [])
  | parent, inF, .text s sib =>
    if acceptNode o w parent inF s then
      (wrapRev s (m s).reverse (highlightDom m o w parent inF sib).1,
        (m s).map (fun p => sliceStr s p.1 p.2) ++
          (highlightDom m o w parent inF sib).2)
    else
      (.text s (highlightDom m o w parent inF sib).1,
        (highlightDom m o w parent inF sib).2)
  | parent, inF, .mark s sib =>
    (.mark s (highlightDom m o w parent inF sib).1,
      (highlightDom m o w parent inF sib).2)
  | parent, inF, .elem d c sib =>
    (.elem d (highlightDom m o w d (inF || d.isFinderContainer) c).1
        (highlightDom m o w parent inF sib).1,
      (highlightDom m o w d (inF || d.isFinderContainer) c).2 ++
        (highlightDom m o w parent inF sib).2)

/-- `highlightText` (`App.tsx` lines 50–141). The host regex engine is
abstracted as `compile`, taking the case-insensitivity flag (the `i` in
`flags`; `g` is always present) and the pattern source, and returning
the `matchAll` semantics of the compiled regex — or `none` when
`new RegExp` throws on an invalid pattern, in which case the enclosing
`try`/`catch` returns an empty mark list before any DOM mutation. An
empty or whitespace-only query short-circuits to no matches without
touching the document. -/
def highlightText (compile : Bool → List Char → Option Matcher)
    (text : List Char) (o : SearchOptions) (w : Window) (body : ElemData)
    (doc : Dom) : Dom × List (List Char) :=
  if (jsTrim text).isEmpty then (doc, [])
  else
    match compile (!o.preserveCase) (buildPattern text o) with
    | none => (doc, [])
    | some m => highlightDom m o w body false doc

/-- The per-mark replacement step of `clearHighlights` (`App.tsx` lines
147–158): each MARK is replaced by a plain text node holding its text
content. -/
def unmark : Dom → Dom
  | .nil => .nil
  | .text s k => .text s (unmark k)
  | .mark s k => .text s (unmark k)
  | .elem d c k => .elem d (unmark c) (unmark k)

/-- `parent.normalize()`: merge adjacent text nodes and drop empty text
nodes, at every level of the fragment (the source normalizes each
cleared mark's parent; normalizing everywhere is the same operation
applied to every parent). -/
def normalizeDom : Dom → Dom
  | .nil => .nil
  | .text s k =>
    if s.isEmpty then normalizeDom k
    else
      match normalizeDom k with
      | .text t k2 => .text (s ++ t) k2
      | other => .text s other
  | .mark s k => .mark s (normalizeDom k)
  | .elem d c k => .elem d (normalizeDom c) (normalizeDom k)

/-- `clearHighlights` over the whole document: replace every mark by its
text content, then normalize. -/
def clearHighlights (doc : Dom) : Dom := normalizeDom (unmark doc)

theorem take_sliceStr_drop (s : List Char) (a b : Nat) (h : a ≤ b) :
    s.take a ++ (sliceStr s a b ++ s.drop b) = s := by
  unfold sliceStr
  rw [← List.append_assoc]
  have h1 : s.take a = (s.take b).take a := by
    rw [List.take_take, Nat.min_eq_left h]
  rw [h1, List.take_append_drop, List.take_append_drop]

theorem docText_wrapRev (rs : List (Nat × Nat)) (s : List Char) (k : Dom)
    (h : ∀ p ∈ rs, p.1 ≤ p.2) :
    docText (wrapRev s rs k) = s ++ docText k := by
  induction rs generalizing s k with
  | nil => rfl
  | cons p rest ih =>
    obtain ⟨a, b⟩ := p
    rw [wrapRev, ih _ _ (fun q hq => h q (List.mem_cons_of_mem _ hq)),
      docText, docText, ← List.append_assoc, ← List.append_assoc]
    have hab : a ≤ b := h (a, b) (List.mem_cons_self _ _)
    rw [List.append_assoc (s.take a), take_sliceStr_drop s a b hab]

theorem docText_unmark (d : Dom) : docText (unmark d) = docText d := by
  induction d with
  | nil => rfl
  | text s k ih => rw [unmark, docText, docText, ih]
  | mark s k ih => rw [unmark, docText, docText, ih]
  | elem e c k ihc ihk => rw [unmark, docText, docText, ihc, ihk]

theorem docText_normalizeDom (d : Dom) :
    docText (normalizeDom d) = docText d := by
  induction d with
  | nil => rfl
  | text s k ih =>
    rw [normalizeDom]
    by_cases he : s.isEmpty
    · rw [if_pos he, ih, docText]
      have hs : s = [] := by
        cases s with
        | nil => rfl
        | cons a as => simp [List.isEmpty] at he
      rw [hs, List.nil_append]
    · rw [if_neg he]
      cases hk : normalizeDom k with
      | nil =>
        rw [hk] at ih
        simp only [docText] at ih ⊢
        rw [← ih]
      | text t k2 =>
        rw [hk] at ih
        simp only [docText] at ih ⊢
        rw [List.append_assoc, ih]
      | mark t k2 =>
        rw [hk] at ih
        simp only [docText] at ih ⊢
        rw [ih]
      | elem e c k2 =>
        rw [hk] at ih
        simp only [docText] at ih ⊢
        rw [ih]
  | mark s k ih => rw [normalizeDom, docText, docText, ih]
  | elem e c k ihc ihk => rw [normalizeDom, docText, docText, ihc, ihk]

theorem docText_clearHighlights (d : Dom) :
    docText (clearHighlights d) = docText d := by
  rw [clearHighlights, docText_normalizeDom, docText_unmark]

theorem docText_highlightDom (m : Matcher) (o : SearchOptions) (w : Window)
    (hm : ∀ s, ∀ p ∈ m s, p.1 ≤ p.2) (parent : ElemData) (inF : Bool)
    (d : Dom) :
    docText (highlightDom m o w parent inF d).1 = docText d := by
  induction d generalizing parent inF with
  | nil => rfl
  | text s k ih =>
    rw [highlightDom]
    by_cases ha : acceptNode o w parent inF s
    · rw [if_pos ha]
      dsimp only
      rw [docText_wrapRev _ _ _
          (fun p hp => hm s p (List.mem_reverse.mp hp)),
        ih parent inF, docText]
    · rw [if_neg ha]
      dsimp only
      rw [docText, docText, ih parent inF]
  | mark s k ih =>
    rw [highlightDom]
    dsimp only
    rw [docText, docText, ih parent inF]
  | elem e c k ihc ihk =>
    rw [highlightDom]
    dsimp only
    rw [docText, docText, ihc _ _, ihk parent inF]

/-- C1: for every document and every matcher the compiled rule may
yield (every `matchAll` range having start ≤ end), clearing the marks
materialized by `highlightText` restores the concatenated visible text
of the document to its pre-materialize state (node boundaries may
differ; the text is unchanged). -/
theorem clear_after_highlight_restores_text
    (compile : Bool → List Char → Option Matcher) (q : List Char)
    (o : SearchOptions) (w : Window) (body : ElemData) (doc : Dom)
    (hm : ∀ ci pat mm, compile ci pat = some mm →
      ∀ s, ∀ p ∈ mm s, p.1 ≤ p.2) :
    docText (clearHighlights (highlightText compile q o w body doc).1) =
      docText doc := by
  unfold highlightText
  by_cases ht : (jsTrim q).isEmpty
  · rw [if_pos ht]
    exact docText_clearHighlights doc
  · rw [if_neg ht]
    cases hc : compile (!o.preserveCase) (buildPattern q o) with
    | none => exact docText_clearHighlights doc
    | some mm =>
      rw [docText_clearHighlights,
        docText_highlightDom mm o w (hm _ _ mm hc) body false doc]

/-- Witness for C1: a one-node document `"hello"` with a matcher that
always reports the single range `(0, 2)`. -/
theorem clear_after_highlight_restores_text_witness :
    docText (clearHighlights
      (highlightText (fun _ _ => some (fun _ => [(0, 2)]))
        ['h', 'e', 'l', 'l', 'o'] ⟨false, false, false, false⟩
        ⟨100, 100, 0⟩ ⟨false, ⟨0, 0, 0, 0⟩, false⟩
        (Dom.text ['h', 'e', 'l', 'l', 'o'] Dom.nil)).1) =
      docText (Dom.text ['h', 'e', 'l', 'l', 'o'] Dom.nil) :=
  clear_after_highlight_restores_text _ _ _ _ _ _
    (by
      intro ci pat mm hmm s p hp
      have hmm2 : (fun _ => [((0 : Nat), (2 : Nat))]) = mm :=
        Option.some.inj hmm
      rw [← hmm2] at hp
      simp only [List.mem_singleton] at hp
      rw [hp]
      decide)

/-- C3: when the pattern does not compile (an invalid regex in regex
mode, `new RegExp` throwing), `highlightText` returns an empty mark set
and leaves the document untouched — the `try`/`catch` degrades the
failure to zero matches instead of letting the exception escape. -/
theorem invalid_pattern_zero_matches
    (compile : Bool → List Char → Option Matcher) (q : List Char)
    (o : SearchOptions) (w : Window) (body : ElemData) (doc : Dom)
    (hfail : compile (!o.preserveCase) (buildPattern q o) = none) :
    highlightText compile q o w body doc = (doc, []) := by
  unfold highlightText
  by_cases ht : (jsTrim q).isEmpty
  · rw [if_pos ht]
  · rw [if_neg ht, hfail]

/-- Witness for C3: a compile function that rejects every pattern (as
`new RegExp` does for the invalid pattern `"("`) yields no marks and an
unchanged document. -/
theorem invalid_pattern_zero_matches_witness :
    highlightText (fun _ _ => none) ['('] ⟨false, false, true, false⟩
        ⟨100, 100, 0⟩ ⟨false, ⟨0, 0, 0, 0⟩, false⟩
        (Dom.text ['a'] Dom.nil) =
      (Dom.text ['a'] Dom.nil, []) :=
  invalid_pattern_zero_matches (fun _ _ => none) ['(']
    ⟨false, false, true, false⟩ ⟨100, 100, 0⟩ ⟨false, ⟨0, 0, 0, 0⟩, false⟩
    (Dom.text ['a'] Dom.nil) rfl

/-- C9: an empty or whitespace-only query yields zero matches without
the document being scanned or changed — whatever the compile function,
options, geometry, document and prior state — and the deferred default
selection on the empty mark set puts the active index at `-1`. -/
theorem empty_query_zero_matches
    (compile : Bool → List Char → Option Matcher) (q : List Char)
    (o : SearchOptions) (w : Window) (body : ElemData) (doc : Dom)
    (hq : (jsTrim q).isEmpty = true) :
    highlightText compile q o w body doc = (doc, []) ∧
    handleClosestMark [] w = -1 := by
  constructor
  · unfold highlightText
    rw [if_pos hq]
  · rfl

/-- Witness for C9 at the whitespace-only query `" "`. -/
theorem empty_query_zero_matches_witness :
    highlightText (fun _ _ => some (fun _ => [])) [' ']
        ⟨false, false, false, false⟩ ⟨100, 100, 0⟩
        ⟨false, ⟨0, 0, 0, 0⟩, false⟩ (Dom.text ['a'] Dom.nil) =
      (Dom.text ['a'] Dom.nil, []) ∧
    handleClosestMark [] ⟨100, 100, 0⟩ = -1 :=
  empty_query_zero_matches (fun _ _ => some (fun _ => [])) [' ']
    ⟨false, false, false, false⟩ ⟨100, 100, 0⟩ ⟨false, ⟨0, 0, 0, 0⟩, false⟩
    (Dom.text ['a'] Dom.nil) (by decide)

/-- Whether the literal `pat` occurs at the head of `t`, compared
case-insensitively (simple lower-case folding, the effect of the regex
`i` flag on these texts) when `ci` is set. -/
def litHere (pat : List Char) (ci : Bool) (t : List Char) : Bool :=
  if ci then (t.take pat.length).map Char.toLower = pat.map Char.toLower
  else t.take pat.length = pat

/-- Left-to-right, non-overlapping scan for a literal pattern: from each
position, either the pattern matches here (record `(pos, pos + len)` and
resume after the match, as a global regex advances `lastIndex` past it)
or move one character forward. The fuel is the text length (each step
consumes at least one character). An empty pattern reports no matches —
unreachable from `highlightText`, whose trim guard keeps queries, and
hence escaped patterns, nonempty. -/
def litScanAux (pat : List Char) (ci : Bool) :
    Nat → List Char → Nat → List (Nat × Nat)
  | 0, _, _ => []
  | _ + 1, [], _ => []
  | fuel + 1, c :: rest, pos =>
    if !pat.isEmpty && litHere pat ci (c :: rest) then
      (pos, pos + pat.length) ::
        litScanAux pat ci fuel ((c :: rest).drop pat.length)
          (pos + pat.length)
    else litScanAux pat ci fuel rest (pos + 1)

/-- `text.matchAll(regex)` for a literal pattern: all the
non-overlapping occurrences, left to right, as offset ranges. -/
def litScan (pat : List Char) (ci : Bool) (t : List Char) :
    List (Nat × Nat) :=
  litScanAux pat ci t.length t 0

/-- The host's `new RegExp(pattern, flags)` restricted to patterns that
denote a literal string (the patterns `highlightText` builds in
non-regex, non-whole-word mode): compilation interprets the escaped
pattern as its literal (`unescapeLit`), and the compiled regex's
`matchAll` is the non-overlapping literal scan, case-insensitive iff the
`i` flag (`ci`) is present. -/
def literalCompile (ci : Bool) (pattern : List Char) : Option Matcher :=
  (unescapeLit pattern).map (fun lit => fun s => litScan lit ci s)

/-- C6 counterexample: scanning the text `"Cat cats cat"` for the query
`"cat"` with `preserveCase = true` (and `useRegex`, `wholeWord`,
`onlyViewport` all false) produces two matches — one at offset 4, inside
`"cats"`, and one at offset 9 — not exactly one match at the final
occurrence. -/
theorem preserve_case_counterexample :
    litScan ['c', 'a', 't'] false
        ['C', 'a', 't', ' ', 'c', 'a', 't', 's', ' ', 'c', 'a', 't'] =
      [(4, 7), (9, 12)] ∧
    (highlightText literalCompile ['c', 'a', 't']
        ⟨true, false, false, false⟩ ⟨100, 100, 0⟩
        ⟨false, ⟨0, 0, 0, 0⟩, false⟩
        (Dom.text
          ['C', 'a', 't', ' ', 'c', 'a', 't', 's', ' ', 'c', 'a', 't']
          Dom.nil)).2.length = 2 ∧
    ¬((2 : Nat) = 1) := by
  refine ⟨by decide, by decide, by decide⟩

/-- C6 (amended): on the text `"Cat cats cat"` with query `"cat"`,
`preserveCase = true` (case-sensitive) yields exactly the two matches at
offsets 4 and 9, and `preserveCase = false` (the default,
case-insensitive) yields the three matches at offsets 0, 4 and 9:
`preserveCase` is exactly the case-sensitivity toggle, with no other
case handling. -/
theorem preserve_case_matrix :
    litScan ['c', 'a', 't'] false
        ['C', 'a', 't', ' ', 'c', 'a', 't', 's', ' ', 'c', 'a', 't'] =
      [(4, 7), (9, 12)] ∧
    (highlightText literalCompile ['c', 'a', 't']
        ⟨true, false, false, false⟩ ⟨100, 100, 0⟩
        ⟨false, ⟨0, 0, 0, 0⟩, false⟩
        (Dom.text
          ['C', 'a', 't', ' ', 'c', 'a', 't', 's', ' ', 'c', 'a', 't']
          Dom.nil)).2 =
      [['c', 'a', 't'], ['c', 'a', 't']] ∧
    litScan ['c', 'a', 't'] true
        ['C', 'a', 't', ' ', 'c', 'a', 't', 's', ' ', 'c', 'a', 't'] =
      [(0, 3), (4, 7), (9, 12)] ∧
    (highlightText literalCompile ['c', 'a', 't']
        ⟨false, false, false, false⟩ ⟨100, 100, 0⟩
        ⟨false, ⟨0, 0, 0, 0⟩, false⟩
        (Dom.text
          ['C', 'a', 't', ' ', 'c', 'a', 't', 's', ' ', 'c', 'a', 't']
          Dom.nil)).2 =
      [['C', 'a', 't'], ['c', 'a', 't'], ['c', 'a', 't']] := by
  refine ⟨by decide, by decide, by decide, by decide⟩
